import Mathlib

/-!
Formal model of the bolt-ride-events pipeline: the Ingestor
(src/lambda_functions/producer/app.py), the Merger
(src/lambda_functions/consumer/app.py) and the Aggregator
(src/lambda_functions/aggregator/app.py), embedded shallowly.

Rows, JSON payloads and DynamoDB items are association lists from
field names to string values, observed through first-match lookup,
which models Python dict access on dicts produced by csv.DictReader
and json.loads. JSON serialisation between the Ingestor and the
Merger is modelled as the identity on the decoded mapping, since
json.dumps followed by json.loads restores the original dict.
-/

/-- A Python dict with string keys and string values (a JSON object or
a CSV row), as an association list observed through `Dict.find?`. -/
abbrev Dict := List (String × String)

/-- Python dict access `d.get(k)`: the value of the first entry whose
key is `k`, or `none` when no entry has key `k`. -/
def Dict.find? : Dict → String → Option String
  | [], _ => none
  | (k', v) :: rest, k => if k' = k then some v else Dict.find? rest k

/-- Python shallow dict merge of `e` with `p`, entries of `p` taking
precedence on key collision (consumer/app.py line 55). -/
def Dict.merge (e p : Dict) : Dict := p ++ e

/-- Python dict assignment of value `v` to key `k`, as observed
through `Dict.find?` (consumer/app.py line 56). -/
def Dict.setField (d : Dict) (k v : String) : Dict := (k, v) :: d

/-- The DynamoDB table: a keyed store from the partition-key attribute
`id` to the stored item. -/
abbrev Store := List (String × Dict)

/-- First-match lookup of the item stored under key `k`. -/
def Store.lookup : Store → String → Option Dict
  | [], _ => none
  | (k', d) :: rest, k => if k' = k then some d else Store.lookup rest k

/-- Remove the entry stored under key `k`, if any. -/
def Store.erase : Store → String → Store
  | [], _ => []
  | (k', d) :: rest, k => if k' = k then rest else (k', d) :: Store.erase rest k

/-- DynamoDB `get_item(Key=...).get('Item', \x7b\x7d)` as used at
consumer/app.py line 51: the stored item, or the empty dict when the
key is absent. -/
def Store.getItem (s : Store) (k : String) : Dict :=
  (Store.lookup s k).getD []

/-- DynamoDB `put_item(Item=item)`: unconditional overwrite of the item
whose key attribute `id` is carried by the item itself. `none` models
the call raising when the item has no `id` attribute (in the Merger
that exception would be caught by the per-record handler; the branch is
unreachable there because the merged item always carries `id`). -/
def Store.putItem (s : Store) (item : Dict) : Option Store :=
  match Dict.find? item "id" with
  | some k => some ((k, item) :: Store.erase s k)
  | none => none

/-- The keyed-store invariant of spec section 3: every stored item
carries an `id` field equal to the key it is stored under. -/
def StoreInv (s : Store) : Prop :=
  ∀ k d, Store.lookup s k = some d → Dict.find? d "id" = some k

namespace Consumer

/-- One Kinesis record after base64 decoding and JSON parsing
(consumer/app.py lines 41-45): `none` models a record whose payload
fails to decode or parse, `some payload` a successfully decoded one. -/
abbrev KRecord := Option Dict

/-- The body of the per-record try block of the Merger
(consumer/app.py lines 39-64). A decode failure or a missing
`trip_id` raises, is caught, and leaves the store unchanged;
otherwise the existing item (empty when absent) is shallow-merged
with the payload, `id` is forced back to `trip_id`, and the merged
item is written back. -/
def processRecord (s : Store) (r : KRecord) : Store :=
  match r with
  | none => s
  | some payload =>
    match Dict.find? payload "trip_id" with
    | none => s
    | some trip_id =>
      let existing := Store.getItem s trip_id
      let merged := Dict.setField (Dict.merge existing payload) "id" trip_id
      match Store.putItem s merged with
      | some s' => s'
      | none => s

/-- The Merger entry point (consumer/app.py lambda_handler): fold the
per-record step over the batch and return the status string "ok"
regardless of individual record failures. -/
def lambda_handler (records : List KRecord) (s : Store) : Store × String :=
  (records.foldl processRecord s, "ok")

/-- The value assigned to field `f` by the most recent dict in `ps`
that contains `f`, or `none` when no dict in `ps` contains `f`. -/
def lastValue (ps : List Dict) (f : String) : Option String :=
  match ps with
  | [] => none
  | p :: rest =>
    match lastValue rest f with
    | some v => some v
    | none => Dict.find? p f

end Consumer

namespace Producer

/-- Outcome of the Ingestor invocation (producer/app.py lines 59 and
96): the dict with status done, or the dict with status error and a
message. -/
inductive IngestStatus
  | done
  | error (msg : String)
deriving DecidableEq

/-- The Kinesis record appended for one parsed CSV row
(producer/app.py lines 83-87): payload is the serialised row and the
partition key is the row's trip_id value, with the sentinel "unknown"
when the row has no trip_id field. -/
def rowEntry (row : Dict) : Dict × String :=
  (row, (Dict.find? row "trip_id").getD "unknown")

/-- The per-row loop of producer/app.py lines 78-88. `ok row` tells
whether put_record succeeds on that row; a failing append raises, so
it aborts the remaining rows of the same file (the exception is only
caught by the per-file handler). Returns the entries appended and
whether the loop ran to completion. -/
def sendRows (ok : Dict → Bool) : List Dict → List (Dict × String) × Bool
  | [] => ([], true)
  | row :: rest =>
    if ok row then
      let es := sendRows ok rest
      (rowEntry row :: es.1, es.2)
    else ([], false)

/-- One S3 notification record: the parsed rows of the referenced CSV
object, or `none` when fetching or decoding the object raises. -/
abbrev S3File := Option (List Dict)

/-- The per-file try block (producer/app.py lines 68-93): any
exception, including one escaping the row loop, is caught here and
processing continues with the next file. -/
def processFile (ok : Dict → Bool) (file : S3File) : List (Dict × String) :=
  match file with
  | none => []
  | some rows => (sendRows ok rows).1

/-- The Ingestor entry point (producer/app.py lambda_handler): when
the stream name configuration is absent it returns the error result
before touching any file; otherwise it processes every file and
returns done. The first component collects the records appended to
the stream, in order. -/
def lambda_handler (streamName : Option String) (files : List S3File)
    (ok : Dict → Bool) : List (Dict × String) × IngestStatus :=
  match streamName with
  | none => ([], IngestStatus.error "Stream name not configured")
  | some _ => ((files.map (processFile ok)).flatten, IngestStatus.done)

end Producer

namespace Aggregator

/-- The decimal digit character for `n` below ten. -/
def digitChar : Nat → Char
  | 0 => '0'
  | 1 => '1'
  | 2 => '2'
  | 3 => '3'
  | 4 => '4'
  | 5 => '5'
  | 6 => '6'
  | 7 => '7'
  | 8 => '8'
  | _ => '9'

/-- Whether a character is a decimal digit. -/
def isDig (c : Char) : Bool := 48 ≤ c.toNat && c.toNat ≤ 57

/-- Numeric value of a digit character. -/
def dVal (c : Char) : Nat := c.toNat - 48

/-- Numeric value of a two-digit group. -/
def val2 (a b : Char) : Nat := dVal a * 10 + dVal b

/-- A parsed pickup_datetime value. -/
structure Timestamp where
  year : Nat
  month : Nat
  day : Nat
  hour : Nat
  minute : Nat
  second : Nat
deriving DecidableEq

/-- The timestamp as a single integer, mirroring the integer
representation pandas uses to compare and group datetime values:
distinct in-range timestamps get distinct keys. -/
def Timestamp.toKey (t : Timestamp) : Nat :=
  ((((t.year * 100 + t.month) * 100 + t.day) * 100 + t.hour) * 100 + t.minute) * 100
    + t.second

/-- The calendar-date part (year, month, day) of a timestamp key. -/
def dayKey (k : Nat) : Nat := k / 1000000

/-- Model of pandas.to_datetime on one value: accepts the ISO format
YYYY-MM-DDTHH:MM:SS with in-range month, day, hour, minute and second
fields, and fails (raising in pandas) on anything else. pandas accepts
further spellings and validates per-month day counts; the pipeline's
data and the repository's test data use exactly this format. -/
def parseDT (str : String) : Option Timestamp :=
  match str.toList with
  | [y1, y2, y3, y4, c1, m1, m2, c2, d1, d2, c3, h1, h2, c4, n1, n2, c5, s1, s2] =>
    if c1 = '-' ∧ c2 = '-' ∧ c3 = 'T' ∧ c4 = ':' ∧ c5 = ':' ∧
        isDig y1 ∧ isDig y2 ∧ isDig y3 ∧ isDig y4 ∧
        isDig m1 ∧ isDig m2 ∧ isDig d1 ∧ isDig d2 ∧
        isDig h1 ∧ isDig h2 ∧ isDig n1 ∧ isDig n2 ∧ isDig s1 ∧ isDig s2 ∧
        1 ≤ val2 m1 m2 ∧ val2 m1 m2 ≤ 12 ∧ 1 ≤ val2 d1 d2 ∧ val2 d1 d2 ≤ 31 ∧
        val2 h1 h2 ≤ 23 ∧ val2 n1 n2 ≤ 59 ∧ val2 s1 s2 ≤ 59 then
      some ⟨val2 y1 y2 * 100 + val2 y3 y4, val2 m1 m2, val2 d1 d2,
            val2 h1 h2, val2 n1 n2, val2 s1 s2⟩
    else none
  | _ => none

/-- Split a character list at its first dot, returning the part before
it and, when a dot occurs, the part after it. -/
def splitDot : List Char → List Char × Option (List Char)
  | [] => ([], none)
  | c :: rest =>
    if c = '.' then ([], some rest)
    else
      let p := splitDot rest
      (c :: p.1, p.2)

/-- Value of a nonempty all-digit character list, `none` otherwise. -/
def digitsVal : List Char → Option Nat
  | [] => none
  | [c] => if isDig c then some (dVal c) else none
  | c :: rest =>
    if isDig c then (digitsVal rest).map (fun n => dVal c * 10 ^ rest.length + n)
    else none

/-- Value of an unsigned decimal literal with an optional fractional
part. -/
def parseNumCore (cs : List Char) : Option ℚ :=
  match splitDot cs with
  | (i, none) => (digitsVal i).map (fun n => (n : ℚ))
  | (i, some f) =>
    match digitsVal i, digitsVal f with
    | some a, some b => some ((a : ℚ) + (b : ℚ) / (10 : ℚ) ^ f.length)
    | _, _ => none

/-- Model of pandas.to_numeric with coercing errors on one value:
the numeric value of a decimal literal with optional sign and
fractional part, and the missing marker `none` (NaN) on anything
else. -/
def toNumeric (s : String) : Option ℚ :=
  match s.toList with
  | [] => none
  | c :: rest =>
    if c = '-' then (parseNumCore rest).map (fun v => -v)
    else parseNumCore (c :: rest)

/-- The scan filter expression of aggregator/app.py lines 26-29: both
fare_amount and estimated_fare_amount attributes must exist. -/
def filterExpr (d : Dict) : Bool :=
  (Dict.find? d "fare_amount").isSome && (Dict.find? d "estimated_fare_amount").isSome

/-- scan_all_items of aggregator/app.py: the paginated full scan,
returning every stored item that matches the filter expression. -/
def scan_all_items (s : Store) : List Dict :=
  (s.map (fun kv => kv.2)).filter filterExpr

/-- The column coercions of aggregator/app.py lines 63-64 applied to
one item: fare_amount through to_numeric (unparseable values become
the missing marker), pickup_datetime through to_datetime, whose
failure raises and aborts the invocation, hence the Option result. An
item without a pickup_datetime field is modelled as a parse failure;
the claims only concern items that carry the field. -/
def parseItem (it : Dict) : Option (Nat × Option ℚ) :=
  (parseDT ((Dict.find? it "pickup_datetime").getD "")).map
    (fun t => (t.toKey, toNumeric ((Dict.find? it "fare_amount").getD "")))

/-- Apply a fallible function to every element, failing when any
application fails. -/
def mapOpt (f : α → Option β) : List α → Option (List β)
  | [] => some []
  | x :: xs =>
    match f x, mapOpt f xs with
    | some y, some ys => some (y :: ys)
    | _, _ => none

/-- Insert a key into an ascending duplicate-free key list. -/
def insertKey (x : Nat) : List Nat → List Nat
  | [] => [x]
  | y :: ys =>
    if x = y then y :: ys
    else if x < y then x :: y :: ys
    else y :: insertKey x ys

/-- The distinct group keys in ascending order: pandas groupby sorts
the group keys ascending and the result rows are iterated in that
order. -/
def sortedKeys (l : List Nat) : List Nat := l.foldr insertKey []

/-- Zero-padded decimal rendering of a calendar date, as strftime with
the year-month-day format produces for four-digit years. -/
def fmtDate (y mo d : Nat) : List Char :=
  [digitChar (y / 1000 % 10), digitChar (y / 100 % 10),
   digitChar (y / 10 % 10), digitChar (y % 10), '-',
   digitChar (mo / 10 % 10), digitChar (mo % 10), '-',
   digitChar (d / 10 % 10), digitChar (d % 10)]

/-- The formatted date of the timestamp encoded by key `k`
(aggregator/app.py line 77). -/
def keyToDate (k : Nat) : String :=
  String.mk (fmtDate (dayKey k / 10000) (dayKey k / 100 % 100) (dayKey k % 100))

/-- The destination object path of aggregator/app.py line 78. -/
def pathFor (k : Nat) : String := "kpis/date=" ++ keyToDate k ++ "/kpi.json"

/-- The per-group statistics row written by the Aggregator. -/
structure KPI where
  pickup_key : Nat
  total_fare : ℚ
  count_trips : Nat
  average_fare : Option ℚ
  max_fare : Option ℚ
  min_fare : Option ℚ
deriving DecidableEq

/-- The parseable fares of the group of coerced rows whose pickup key
is `k`: coerced-missing (NaN) fares are dropped, as every one of the
five pandas aggregations skips NaN. -/
def faresOf (rows : List (Nat × Option ℚ)) (k : Nat) : List ℚ :=
  (rows.filter (fun r => r.1 == k)).filterMap (fun r => r.2)

/-- The pandas aggregation over one pickup_datetime group
(aggregator/app.py lines 67-73): sum, count, mean, max and min of the
group's fare_amount values. -/
def kpiFor (rows : List (Nat × Option ℚ)) (k : Nat) : KPI :=
  let fares := faresOf rows k
  ⟨k, fares.sum, fares.length,
   if fares.length = 0 then none else some (fares.sum / (fares.length : ℚ)),
   fares.max?, fares.min?⟩

/-- The Aggregator entry point (aggregator/app.py lambda_handler):
scan, return early with no writes when nothing matches, coerce the
fare and datetime columns, group by exact pickup_datetime and emit
one put_object write per group in ascending key order. An error value
models the invocation failing with a raised exception. -/
def lambda_handler (s : Store) : Except String (List (String × KPI)) :=
  match scan_all_items s with
  | [] => Except.ok []
  | it :: its =>
    match mapOpt parseItem (it :: its) with
    | none => Except.error "unparseable pickup_datetime"
    | some rows =>
      Except.ok ((sortedKeys (rows.map (fun r => r.1))).map
        (fun k => (pathFor k, kpiFor rows k)))

/-- The object finally stored at path `p` after the sequence of
put_object writes `ws`: each later write to a path overwrites any
earlier one. -/
def lastWrite? (ws : List (String × KPI)) (p : String) : Option KPI :=
  match ws with
  | [] => none
  | w :: rest =>
    match lastWrite? rest p with
    | some k => some k
    | none => if w.1 = p then some w.2 else none

end Aggregator

/-- An append oracle under which put_record raises exactly on the row
whose trip_id is t1 and succeeds on every other row. -/
def failsOnT1 (r : Dict) : Bool := !(Dict.find? r "trip_id" == some "t1")

/-- Two sample decoded Merger payloads sharing trip_id t1, the second
overwriting the fare and adding a pickup time, used to instantiate the
merge theorems on concrete input. -/
def samplePayloads : List Dict :=
  [[("trip_id", "t1"), ("fare_amount", "10"), ("id", "zzz")],
   [("trip_id", "t1"), ("pickup_datetime", "2025-04-22T08:30:00"), ("fare_amount", "20")]]

/-- The first of the three trip records of the repository's
test_aggregation.py mock data. -/
def tripA : Dict :=
  [("id", "a"), ("pickup_datetime", "2025-04-22T08:30:00"),
   ("fare_amount", "20.0"), ("estimated_fare_amount", "22.0")]

/-- The second mock trip record. -/
def tripB : Dict :=
  [("id", "b"), ("pickup_datetime", "2025-04-22T09:00:00"),
   ("fare_amount", "25.0"), ("estimated_fare_amount", "27.0")]

/-- The third mock trip record. -/
def tripC : Dict :=
  [("id", "c"), ("pickup_datetime", "2025-04-22T10:15:00"),
   ("fare_amount", "15.0"), ("estimated_fare_amount", "17.0")]

/-- A keyed store holding the three mock trip records of
test_aggregation.py: three distinct pickup timestamps on the same
calendar day. -/
def storeTest : Store := [("a", tripA), ("b", tripB), ("c", tripC)]

/-- The coerced rows the Aggregator derives from `storeTest`. -/
def rowsTest : List (Nat × Option ℚ) :=
  [(20250422083000, some 20), (20250422090000, some 25), (20250422101500, some 15)]

/-- A store whose single matching item carries an unparseable
fare_amount but a parseable pickup_datetime. -/
def storeBadFare : Store :=
  [("x", [("id", "x"), ("pickup_datetime", "2025-04-22T08:30:00"),
          ("fare_amount", "abc"), ("estimated_fare_amount", "1")])]

/-- A store whose single matching item carries an unparseable
pickup_datetime. -/
def storeBadTime : Store :=
  [("y", [("id", "y"), ("pickup_datetime", "notadate"),
          ("fare_amount", "7.5"), ("estimated_fare_amount", "8")])]

/-! ### Association-list lemmas -/

theorem Dict.find?_append (d e : Dict) (k : String) :
    Dict.find? (d ++ e) k =
      match Dict.find? d k with
      | some v => some v
      | none => Dict.find? e k := by
  induction d with
  | nil => rfl
  | cons kv rest ih =>
    obtain ⟨k', v⟩ := kv
    by_cases h : k' = k
    · simp [Dict.find?, h]
    · simp [Dict.find?, h, ih]

theorem Dict.find?_setField_self (d : Dict) (k v : String) :
    Dict.find? (Dict.setField d k v) k = some v := by
  simp [Dict.setField, Dict.find?]

theorem Dict.find?_setField_ne (d : Dict) (k v f : String) (h : k ≠ f) :
    Dict.find? (Dict.setField d k v) f = Dict.find? d f := by
  simp [Dict.setField, Dict.find?, h]

theorem Store.lookup_erase_ne (s : Store) (k k' : String) (h : k ≠ k') :
    Store.lookup (Store.erase s k) k' = Store.lookup s k' := by
  induction s with
  | nil => rfl
  | cons kv rest ih =>
    obtain ⟨k0, d⟩ := kv
    by_cases h0 : k0 = k
    · subst h0
      simp [Store.erase, Store.lookup, h]
    · simp [Store.erase, Store.lookup, h0, ih]

/-! ### Merger lemmas -/

theorem Consumer.lastValue_cons (p : Dict) (rest : List Dict) (f : String) :
    Consumer.lastValue (p :: rest) f =
      match Consumer.lastValue rest f with
      | some v => some v
      | none => Dict.find? p f := rfl

theorem Consumer.processRecord_some (s : Store) (payload : Dict) (tid : String)
    (h : Dict.find? payload "trip_id" = some tid) :
    Consumer.processRecord s (some payload) =
      (tid, Dict.setField (Dict.merge (Store.getItem s tid) payload) "id" tid)
        :: Store.erase s tid := by
  simp [Consumer.processRecord, h, Store.putItem, Dict.setField, Dict.find?]

theorem Store.getItem_cons_self (m : Dict) (rest : Store) (tid : String) :
    Store.getItem ((tid, m) :: rest) tid = m := by
  simp [Store.getItem, Store.lookup]

theorem Consumer.find?_processRecord (s : Store) (payload : Dict) (tid f : String)
    (h : Dict.find? payload "trip_id" = some tid) (hf : f ≠ "id") :
    Dict.find? (Store.getItem (Consumer.processRecord s (some payload)) tid) f =
      match Dict.find? payload f with
      | some v => some v
      | none => Dict.find? (Store.getItem s tid) f := by
  rw [Consumer.processRecord_some s payload tid h, Store.getItem_cons_self]
  rw [Dict.find?_setField_ne _ _ _ _ (Ne.symm hf)]
  exact Dict.find?_append payload (Store.getItem s tid) f

theorem Consumer.find?_processRecord_id (s : Store) (payload : Dict) (tid : String)
    (h : Dict.find? payload "trip_id" = some tid) :
    Dict.find? (Store.getItem (Consumer.processRecord s (some payload)) tid) "id"
      = some tid := by
  rw [Consumer.processRecord_some s payload tid h, Store.getItem_cons_self]
  exact Dict.find?_setField_self _ _ _

theorem Consumer.fold_find? (tid f : String) (hf : f ≠ "id") (ps : List Dict) :
    ∀ s : Store, (∀ p ∈ ps, Dict.find? p "trip_id" = some tid) →
      Dict.find? (Store.getItem ((ps.map some).foldl Consumer.processRecord s) tid) f =
        match Consumer.lastValue ps f with
        | some v => some v
        | none => Dict.find? (Store.getItem s tid) f := by
  induction ps with
  | nil => intro s _; rfl
  | cons p rest ih =>
    intro s hps
    have hp := hps p (List.mem_cons_self p rest)
    simp only [List.map_cons, List.foldl_cons]
    rw [ih (Consumer.processRecord s (some p))
      (fun q hq => hps q (List.mem_cons_of_mem p hq))]
    rw [Consumer.find?_processRecord s p tid f hp hf]
    rw [Consumer.lastValue_cons]
    cases Consumer.lastValue rest f with
    | some v => rfl
    | none => cases Dict.find? p f <;> rfl

theorem Consumer.fold_find?_id (tid : String) (ps : List Dict) :
    ∀ s : Store, (∀ p ∈ ps, Dict.find? p "trip_id" = some tid) →
      Dict.find? (Store.getItem s tid) "id" = some tid →
      Dict.find? (Store.getItem ((ps.map some).foldl Consumer.processRecord s) tid) "id"
        = some tid := by
  induction ps with
  | nil => intro s _ h; exact h
  | cons p rest ih =>
    intro s hps _
    simp only [List.map_cons, List.foldl_cons]
    exact ih (Consumer.processRecord s (some p))
      (fun q hq => hps q (List.mem_cons_of_mem p hq))
      (Consumer.find?_processRecord_id s p tid (hps p (List.mem_cons_self p rest)))

theorem Consumer.lastValue_isSome (ps : List Dict) (f : String) :
    (Consumer.lastValue ps f).isSome = true ↔
      ∃ p ∈ ps, (Dict.find? p f).isSome = true := by
  induction ps with
  | nil => simp [Consumer.lastValue]
  | cons p rest ih =>
    rw [Consumer.lastValue_cons]
    cases hlv : Consumer.lastValue rest f with
    | some v =>
      simp only [Option.isSome_some, true_iff]
      obtain ⟨q, hq, hqs⟩ := ih.mp (by rw [hlv]; rfl)
      exact ⟨q, List.mem_cons_of_mem p hq, hqs⟩
    | none =>
      rw [hlv] at ih
      simp only [List.mem_cons]
      constructor
      · intro hp
        exact ⟨p, Or.inl rfl, hp⟩
      · rintro ⟨q, hq | hq, hqs⟩
        · exact hq ▸ hqs
        · exact absurd (ih.mpr ⟨q, hq, hqs⟩) (by simp)

/-! ### Claim C1 -/

/-- C1: for every sequence of successfully decoded Merger records sharing
the same trip_id, applied in order to a store with no record under that
trip_id, the final stored record's id field equals the trip_id regardless
of any id field carried in a payload, every other field's value is the
value from the most recent record in the sequence that included that
field (last-write-wins per field), and the stored field set is the union
of all fields ever sent for that trip_id. -/
theorem merger_last_write_wins (s0 : Store) (tid : String) (ps : List Dict)
    (h0 : Store.lookup s0 tid = none)
    (hps : ∀ p ∈ ps, Dict.find? p "trip_id" = some tid)
    (hne : ps ≠ []) :
    Dict.find? (Store.getItem ((Consumer.lambda_handler (ps.map some) s0).1) tid) "id"
        = some tid ∧
    (∀ f, f ≠ "id" →
      Dict.find? (Store.getItem ((Consumer.lambda_handler (ps.map some) s0).1) tid) f
        = Consumer.lastValue ps f) ∧
    (∀ f, f ≠ "id" →
      ((Dict.find? (Store.getItem ((Consumer.lambda_handler (ps.map some) s0).1) tid) f).isSome
        = true ↔ ∃ p ∈ ps, (Dict.find? p f).isSome = true)) := by
  have hgd : Store.getItem s0 tid = [] := by
    simp [Store.getItem, h0]
  have hmain : ∀ f, f ≠ "id" →
      Dict.find? (Store.getItem ((ps.map some).foldl Consumer.processRecord s0) tid) f
        = Consumer.lastValue ps f := by
    intro f hf
    rw [Consumer.fold_find? tid f hf ps s0 hps, hgd]
    cases Consumer.lastValue ps f with
    | some v => rfl
    | none => rfl
  have hid : Dict.find? (Store.getItem ((ps.map some).foldl Consumer.processRecord s0) tid)
      "id" = some tid := by
    match ps, hps, hne with
    | p :: rest, hps, _ =>
      simp only [List.map_cons, List.foldl_cons]
      exact Consumer.fold_find?_id tid rest (Consumer.processRecord s0 (some p))
        (fun q hq => hps q (List.mem_cons_of_mem p hq))
        (Consumer.find?_processRecord_id s0 p tid (hps p (List.mem_cons_self p rest)))
  refine ⟨hid, hmain, fun f hf => ?_⟩
  show (Dict.find? (Store.getItem ((ps.map some).foldl Consumer.processRecord s0) tid)
    f).isSome = true ↔ _
  rw [hmain f hf]
  exact Consumer.lastValue_isSome ps f

/-- Witness for C1 at the two sample payloads applied to the empty store. -/
theorem merger_last_write_wins_witness :
    (Store.lookup ([] : Store) "t1" = none ∧
      (∀ p ∈ samplePayloads, Dict.find? p "trip_id" = some "t1") ∧
      samplePayloads ≠ []) ∧
    (Dict.find? (Store.getItem ((Consumer.lambda_handler (samplePayloads.map some) []).1) "t1")
        "id" = some "t1" ∧
     (∀ f, f ≠ "id" →
       Dict.find? (Store.getItem ((Consumer.lambda_handler (samplePayloads.map some) []).1) "t1")
         f = Consumer.lastValue samplePayloads f) ∧
     (∀ f, f ≠ "id" →
       ((Dict.find? (Store.getItem ((Consumer.lambda_handler (samplePayloads.map some) []).1)
         "t1") f).isSome = true ↔ ∃ p ∈ samplePayloads, (Dict.find? p f).isSome = true))) :=
  ⟨⟨rfl, by decide, by decide⟩,
   merger_last_write_wins [] "t1" samplePayloads rfl (by decide) (by decide)⟩

/-! ### Claim C6 -/

/-- C6: a Merger record whose decoded payload lacks the trip_id field
causes zero keyed-store writes for that record, does not abort the
processing of the subsequent records in the batch, and the handler still
returns the ok status for the batch. -/
theorem merger_missing_trip_id (pre post : List Consumer.KRecord) (p : Dict) (s : Store)
    (hp : Dict.find? p "trip_id" = none) :
    Consumer.lambda_handler (pre ++ some p :: post) s
        = Consumer.lambda_handler (pre ++ post) s ∧
    (Consumer.lambda_handler (pre ++ some p :: post) s).2 = "ok" := by
  have hskip : ∀ s' : Store, Consumer.processRecord s' (some p) = s' := fun s' => by
    simp [Consumer.processRecord, hp]
  refine ⟨?_, rfl⟩
  simp [Consumer.lambda_handler, List.foldl_append, hskip]

/-- Witness for C6: a payload without trip_id between a good record and a
record that fails to decode. -/
theorem merger_missing_trip_id_witness :
    Dict.find? [("fare_amount", "9")] "trip_id" = none ∧
    (Consumer.lambda_handler
        ([some [("trip_id", "t9")]] ++ some [("fare_amount", "9")] :: [none]) []
        = Consumer.lambda_handler ([some [("trip_id", "t9")]] ++ [none]) [] ∧
     (Consumer.lambda_handler
        ([some [("trip_id", "t9")]] ++ some [("fare_amount", "9")] :: [none]) []).2 = "ok") :=
  ⟨by decide,
   merger_missing_trip_id [some [("trip_id", "t9")]] [none] [("fare_amount", "9")] []
     (by decide)⟩

/-! ### Claim C9 -/

theorem Consumer.processRecord_inv (s : Store) (r : Consumer.KRecord) (hs : StoreInv s) :
    StoreInv (Consumer.processRecord s r) := by
  match r with
  | none => exact hs
  | some payload =>
    cases hp : Dict.find? payload "trip_id" with
    | none =>
      intro k d hk
      rw [show Consumer.processRecord s (some payload) = s from by
        simp [Consumer.processRecord, hp]] at hk
      exact hs k d hk
    | some tid =>
      rw [Consumer.processRecord_some s payload tid hp]
      intro k d hk
      simp only [Store.lookup] at hk
      split at hk
      next heq =>
        cases hk
        exact heq ▸ Dict.find?_setField_self _ _ _
      next hne =>
        rw [Store.lookup_erase_ne s tid k hne] at hk
        exact hs k d hk

theorem Consumer.fold_inv (records : List Consumer.KRecord) :
    ∀ s : Store, StoreInv s → StoreInv (records.foldl Consumer.processRecord s) := by
  induction records with
  | nil => exact fun s hs => hs
  | cons r rest ih =>
    intro s hs
    exact ih (Consumer.processRecord s r) (Consumer.processRecord_inv s r hs)

/-- C9: after every successful Merger batch applied to a store in which
every item's id field equals its key, the invariant still holds (the
record stored under key k has id present and equal to k), and hence no
sequence of Merger operations changes the id field of a record that was
present before and is present after. -/
theorem merger_id_invariant (records : List Consumer.KRecord) (s : Store)
    (hs : StoreInv s) :
    StoreInv ((Consumer.lambda_handler records s).1) ∧
    (∀ k d d', Store.lookup s k = some d →
      Store.lookup ((Consumer.lambda_handler records s).1) k = some d' →
      Dict.find? d' "id" = Dict.find? d "id") := by
  have hinv : StoreInv ((Consumer.lambda_handler records s).1) :=
    Consumer.fold_inv records s hs
  refine ⟨hinv, fun k d d' hd hd' => ?_⟩
  rw [hinv k d' hd', hs k d hd]

/-- Witness for C9 at the sample payload batch applied to the empty
store, which satisfies the invariant vacuously. -/
theorem merger_id_invariant_witness :
    StoreInv ([] : Store) ∧
    (StoreInv ((Consumer.lambda_handler (samplePayloads.map some) []).1) ∧
     (∀ k d d', Store.lookup ([] : Store) k = some d →
       Store.lookup ((Consumer.lambda_handler (samplePayloads.map some) []).1) k = some d' →
       Dict.find? d' "id" = Dict.find? d "id")) :=
  ⟨fun k d h => by simp [Store.lookup] at h,
   merger_id_invariant (samplePayloads.map some) []
     (fun k d h => by simp [Store.lookup] at h)⟩

/-! ### Ingestor lemmas -/

theorem Producer.sendRows_eq_takeWhile (ok : Dict → Bool) (rows : List Dict) :
    (Producer.sendRows ok rows).1 = (rows.takeWhile ok).map Producer.rowEntry := by
  induction rows with
  | nil => rfl
  | cons r rest ih =>
    by_cases h : ok r
    · simp [Producer.sendRows, List.takeWhile_cons, h, ih]
    · simp [Producer.sendRows, List.takeWhile_cons, h]

theorem Producer.processFile_eq (ok : Dict → Bool) (f : Producer.S3File) :
    Producer.processFile ok f = ((f.getD []).takeWhile ok).map Producer.rowEntry := by
  cases f with
  | none => rfl
  | some rows => exact Producer.sendRows_eq_takeWhile ok rows

theorem Producer.processFile_fun (ok : Dict → Bool) :
    Producer.processFile ok
      = fun f => ((f.getD []).takeWhile ok).map Producer.rowEntry :=
  funext (Producer.processFile_eq ok)

theorem Producer.rowEntry_fun :
    Producer.rowEntry = fun row => (row, (Dict.find? row "trip_id").getD "unknown") :=
  rfl

/-! ### Claim C3 -/

/-- C3 counterexample: a file whose first row's append fails and whose
second row's append would succeed ends up with an empty log: the second
row, although its own append does not fail, is never appended, so a
row-append failure is not isolated at row granularity. -/
theorem ingestor_row_isolation_counterexample :
    failsOnT1 [("trip_id", "t2")] = true ∧
    (Producer.lambda_handler (some "s")
        [some [[("trip_id", "t1")], [("trip_id", "t2")]]] failsOnT1).1 = [] ∧
    (Producer.lambda_handler (some "s")
        [some [[("trip_id", "t1")], [("trip_id", "t2")]]] failsOnT1).2
      = Producer.IngestStatus.done :=
  ⟨by decide, by decide, by decide⟩

/-- C3 amended: a failure while appending one row of a file is caught and
logged at file granularity: the rows of the file before its first failing
append are appended, the failing row and the remaining rows of that same
file are skipped, and processing continues with the next file, which is
unaffected. -/
theorem ingestor_append_failure_file_granularity (n : String)
    (files : List Producer.S3File) (ok : Dict → Bool) :
    (Producer.lambda_handler (some n) files ok).1
      = (files.map (fun f => ((f.getD []).takeWhile ok).map Producer.rowEntry)).flatten ∧
    (Producer.lambda_handler (some n) files ok).2 = Producer.IngestStatus.done := by
  constructor
  · show ((files.map (Producer.processFile ok)).flatten) = _
    rw [Producer.processFile_fun]
  · rfl

/-! ### Claim C7 -/

/-- C7: when the stream name configuration is absent the Ingestor
returns the error result with no log appends and no per-record
processing; otherwise it returns the done status on completion of the
batch. -/
theorem ingestor_config_shortcircuit (files : List Producer.S3File) (ok : Dict → Bool) :
    Producer.lambda_handler none files ok
        = ([], Producer.IngestStatus.error "Stream name not configured") ∧
    (∀ n, (Producer.lambda_handler (some n) files ok).2 = Producer.IngestStatus.done) :=
  ⟨rfl, fun _ => rfl⟩

/-! ### Claim C8 -/

/-- C8: for every row the Ingestor successfully parses, when the
appends succeed it appends exactly one log record, in file order, whose
payload is the serialised row and whose partition key is the row's
trip_id value, or the sentinel "unknown" when the row has no trip_id
field. -/
theorem ingestor_one_record_per_row (n : String) (files : List Producer.S3File)
    (ok : Dict → Bool) (hok : ∀ r, ok r = true) :
    (Producer.lambda_handler (some n) files ok).1
      = (files.map (fun f => (f.getD []).map (fun row =>
          (row, (Dict.find? row "trip_id").getD "unknown")))).flatten := by
  have htw : ∀ rows : List Dict, rows.takeWhile ok = rows := by
    intro rows
    induction rows with
    | nil => rfl
    | cons r rest ih => simp [List.takeWhile_cons, hok r, ih]
  show ((files.map (Producer.processFile ok)).flatten) = _
  simp [Producer.processFile_fun, htw, Producer.rowEntry_fun]

/-- Witness for C8: two files, one of them failing to fetch, under an
oracle on which every append succeeds. -/
theorem ingestor_one_record_per_row_witness :
    (∀ r : Dict, (fun _ : Dict => true) r = true) ∧
    (Producer.lambda_handler (some "s") [some [[("trip_id", "t1")], [("x", "9")]], none]
        (fun _ => true)).1
      = ([some [[("trip_id", "t1")], [("x", "9")]], none].map
          (fun f => ((f.getD []).map (fun row =>
            (row, (Dict.find? row "trip_id").getD "unknown"))))).flatten :=
  ⟨fun _ => rfl, ingestor_one_record_per_row "s" _ _ (fun _ => rfl)⟩

/-! ### Claim C2 -/

/-- C2 round-trip: a CSV row containing a trip_id that the Ingestor
serialises is appended with payload equal to the row and partition key
equal to the trip_id, and when the Merger consumes that record while no
keyed record exists for the trip_id, the stored keyed record's fields
exactly equal the original row's fields plus the enforced id field,
with id equal to the trip_id. -/
theorem ingest_merge_roundtrip (r : Dict) (tid : String) (s0 : Store) (ok : Dict → Bool)
    (hr : Dict.find? r "trip_id" = some tid)
    (hok : ok r = true)
    (h0 : Store.lookup s0 tid = none) :
    (Producer.sendRows ok [r]).1 = [(r, tid)] ∧
    Dict.find? (Store.getItem (Consumer.processRecord s0 (some r)) tid) "id" = some tid ∧
    (∀ f, f ≠ "id" →
      Dict.find? (Store.getItem (Consumer.processRecord s0 (some r)) tid) f
        = Dict.find? r f) := by
  refine ⟨?_, Consumer.find?_processRecord_id s0 r tid hr, ?_⟩
  · simp [Producer.sendRows, hok, Producer.rowEntry, hr]
  · intro f hf
    rw [Consumer.find?_processRecord s0 r tid f hr hf]
    have hgd : Store.getItem s0 tid = [] := by simp [Store.getItem, h0]
    rw [hgd]
    cases Dict.find? r f with
    | some v => rfl
    | none => rfl

/-- Witness for C2 at a concrete row consumed over a store holding an
unrelated key. -/
theorem ingest_merge_roundtrip_witness :
    (Dict.find? [("trip_id", "t7"), ("fare_amount", "12.5")] "trip_id" = some "t7" ∧
     (fun _ : Dict => true) [("trip_id", "t7"), ("fare_amount", "12.5")] = true ∧
     Store.lookup [("t1", [("id", "t1")])] "t7" = none) ∧
    ((Producer.sendRows (fun _ => true) [[("trip_id", "t7"), ("fare_amount", "12.5")]]).1
        = [([("trip_id", "t7"), ("fare_amount", "12.5")], "t7")] ∧
     Dict.find? (Store.getItem (Consumer.processRecord [("t1", [("id", "t1")])]
        (some [("trip_id", "t7"), ("fare_amount", "12.5")])) "t7") "id" = some "t7" ∧
     (∀ f, f ≠ "id" →
       Dict.find? (Store.getItem (Consumer.processRecord [("t1", [("id", "t1")])]
          (some [("trip_id", "t7"), ("fare_amount", "12.5")])) "t7") f
         = Dict.find? [("trip_id", "t7"), ("fare_amount", "12.5")] f)) :=
  ⟨⟨by decide, rfl, by decide⟩,
   ingest_merge_roundtrip [("trip_id", "t7"), ("fare_amount", "12.5")] "t7"
     [("t1", [("id", "t1")])] (fun _ => true) (by decide) rfl (by decide)⟩

/-! ### Aggregator lemmas: mapOpt -/

theorem Aggregator.mapOpt_isSome {α β : Type} (f : α → Option β) (xs : List α)
    (h : ∀ x ∈ xs, (f x).isSome = true) :
    ∃ ys, Aggregator.mapOpt f xs = some ys := by
  induction xs with
  | nil => exact ⟨[], rfl⟩
  | cons x xs ih =>
    obtain ⟨ys, hys⟩ := ih (fun a ha => h a (List.mem_cons_of_mem x ha))
    have hx := h x (List.mem_cons_self x xs)
    cases hfx : f x with
    | none => rw [hfx] at hx; cases hx
    | some y => exact ⟨y :: ys, by simp [Aggregator.mapOpt, hfx, hys]⟩

theorem Aggregator.mapOpt_eq_none {α β : Type} (f : α → Option β) (xs : List α)
    (x : α) (hx : x ∈ xs) (hfx : f x = none) : Aggregator.mapOpt f xs = none := by
  induction xs with
  | nil => cases hx
  | cons a xs ih =>
    rcases List.mem_cons.mp hx with rfl | hmem
    · simp [Aggregator.mapOpt, hfx]
    · cases hfa : f a <;> simp [Aggregator.mapOpt, hfa, ih hmem]

theorem Aggregator.mapOpt_forall₂ {α β : Type} (f : α → Option β) :
    ∀ (xs : List α) (ys : List β), Aggregator.mapOpt f xs = some ys →
      List.Forall₂ (fun x y => f x = some y) xs ys := by
  intro xs
  induction xs with
  | nil =>
    intro ys h
    simp only [Aggregator.mapOpt, Option.some.injEq] at h
    rw [← h]
    exact List.Forall₂.nil
  | cons x xs ih =>
    intro ys h
    simp only [Aggregator.mapOpt] at h
    cases hfx : f x with
    | none => rw [hfx] at h; cases h
    | some y =>
      rw [hfx] at h
      cases hm : Aggregator.mapOpt f xs with
      | none => rw [hm] at h; cases h
      | some ys' =>
        rw [hm] at h
        simp only [Option.some.injEq] at h
        rw [← h]
        exact List.Forall₂.cons hfx (ih ys' hm)

theorem Aggregator.mapOpt_mem {α β : Type} (f : α → Option β) :
    ∀ (xs : List α) (ys : List β), Aggregator.mapOpt f xs = some ys →
      ∀ y ∈ ys, ∃ x ∈ xs, f x = some y := by
  intro xs
  induction xs with
  | nil =>
    intro ys h y hy
    simp only [Aggregator.mapOpt, Option.some.injEq] at h
    rw [← h] at hy
    cases hy
  | cons x xs ih =>
    intro ys h y hy
    simp only [Aggregator.mapOpt] at h
    cases hfx : f x with
    | none => rw [hfx] at h; cases h
    | some y0 =>
      rw [hfx] at h
      cases hm : Aggregator.mapOpt f xs with
      | none => rw [hm] at h; cases h
      | some ys' =>
        rw [hm] at h
        simp only [Option.some.injEq] at h
        rw [← h] at hy
        rcases List.mem_cons.mp hy with rfl | hmem
        · exact ⟨x, List.mem_cons_self x xs, hfx⟩
        · obtain ⟨a, ha, hfa⟩ := ih ys' hm y hmem
          exact ⟨a, List.mem_cons_of_mem x ha, hfa⟩

/-! ### Aggregator lemmas: sorted distinct keys -/

theorem Aggregator.mem_insertKey (x a : Nat) (l : List Nat) :
    a ∈ Aggregator.insertKey x l ↔ a = x ∨ a ∈ l := by
  induction l with
  | nil => simp [Aggregator.insertKey]
  | cons y ys ih =>
    by_cases hxy : x = y
    · subst hxy
      simp only [Aggregator.insertKey, if_pos rfl]
      constructor
      · intro h; exact Or.inr h
      · rintro (rfl | h)
        · exact List.mem_cons_self _ _
        · exact h
    · by_cases hlt : x < y
      · simp only [Aggregator.insertKey, if_neg hxy, if_pos hlt, List.mem_cons]
      · simp only [Aggregator.insertKey, if_neg hxy, if_neg hlt, List.mem_cons, ih]
        tauto

theorem Aggregator.pairwise_insertKey (x : Nat) (l : List Nat)
    (h : l.Pairwise (· < ·)) : (Aggregator.insertKey x l).Pairwise (· < ·) := by
  induction l with
  | nil => simp [Aggregator.insertKey]
  | cons y ys ih =>
    have hy : ∀ b ∈ ys, y < b := fun b hb => List.rel_of_pairwise_cons h hb
    have hys : ys.Pairwise (· < ·) := h.of_cons
    by_cases hxy : x = y
    · subst hxy
      simpa [Aggregator.insertKey] using h
    · by_cases hlt : x < y
      · simp only [Aggregator.insertKey, if_neg hxy, if_pos hlt]
        refine List.Pairwise.cons ?_ h
        intro b hb
        rcases List.mem_cons.mp hb with rfl | hmem
        · exact hlt
        · exact Nat.lt_trans hlt (hy b hmem)
      · have hyx : y < x := by omega
        simp only [Aggregator.insertKey, if_neg hxy, if_neg hlt]
        refine List.Pairwise.cons ?_ (ih hys)
        intro b hb
        rcases (Aggregator.mem_insertKey x b ys).mp hb with rfl | hmem
        · exact hyx
        · exact hy b hmem

theorem Aggregator.mem_sortedKeys (l : List Nat) (a : Nat) :
    a ∈ Aggregator.sortedKeys l ↔ a ∈ l := by
  induction l with
  | nil => simp [Aggregator.sortedKeys]
  | cons x xs ih =>
    show a ∈ Aggregator.insertKey x (Aggregator.sortedKeys xs) ↔ _
    rw [Aggregator.mem_insertKey, ih, List.mem_cons]

theorem Aggregator.sortedKeys_pairwise (l : List Nat) :
    (Aggregator.sortedKeys l).Pairwise (· < ·) := by
  induction l with
  | nil => simp [Aggregator.sortedKeys]
  | cons x xs ih => exact Aggregator.pairwise_insertKey x (Aggregator.sortedKeys xs) ih

theorem Aggregator.sortedKeys_nodup (l : List Nat) :
    (Aggregator.sortedKeys l).Nodup :=
  (Aggregator.sortedKeys_pairwise l).imp (fun h => Nat.ne_of_lt h)

theorem Aggregator.sortedKeys_length_dedup (l : List Nat) :
    (Aggregator.sortedKeys l).length = l.dedup.length := by
  have hperm : List.Perm (Aggregator.sortedKeys l) l.dedup := by
    rw [List.perm_ext_iff_of_nodup (Aggregator.sortedKeys_nodup l) l.nodup_dedup]
    intro a
    rw [Aggregator.mem_sortedKeys, List.mem_dedup]
  exact hperm.length_eq

/-! ### Aggregator lemmas: handler shape -/

theorem Aggregator.lambda_handler_ok (s : Store) (rows : List (Nat × Option ℚ))
    (hne : Aggregator.scan_all_items s ≠ [])
    (hrows : Aggregator.mapOpt Aggregator.parseItem (Aggregator.scan_all_items s)
      = some rows) :
    Aggregator.lambda_handler s
      = Except.ok ((Aggregator.sortedKeys (rows.map (fun r => r.1))).map
          (fun k => (Aggregator.pathFor k, Aggregator.kpiFor rows k))) := by
  cases h : Aggregator.scan_all_items s with
  | nil => exact absurd h hne
  | cons it its =>
    rw [h] at hrows
    simp [Aggregator.lambda_handler, h, hrows]

theorem Aggregator.lambda_handler_err (s : Store)
    (hne : Aggregator.scan_all_items s ≠ [])
    (hrows : Aggregator.mapOpt Aggregator.parseItem (Aggregator.scan_all_items s)
      = none) :
    Aggregator.lambda_handler s = Except.error "unparseable pickup_datetime" := by
  cases h : Aggregator.scan_all_items s with
  | nil => exact absurd h hne
  | cons it its =>
    rw [h] at hrows
    simp [Aggregator.lambda_handler, h, hrows]

/-! ### Claim C4 -/

theorem Aggregator.parseItem_isSome (it : Dict) :
    (Aggregator.parseItem it).isSome
      = (Aggregator.parseDT ((Dict.find? it "pickup_datetime").getD "")).isSome := by
  cases h : Aggregator.parseDT ((Dict.find? it "pickup_datetime").getD "") <;>
    simp [Aggregator.parseItem, h]

/-- C4: for every non-empty set of matching records, the invocation
fails exactly when some record's pickup_datetime does not parse: a
fare_amount value that cannot be parsed as a number never fails the
invocation (it enters the coerced row as to_numeric's missing marker),
whereas an unparseable pickup_datetime value raises out of
lambda_handler and fails the entire invocation, with no per-row
isolation. -/
theorem aggregator_parse_failures (s : Store)
    (hne : Aggregator.scan_all_items s ≠ []) :
    ((Aggregator.lambda_handler s).isOk = true ↔
      ∀ it ∈ Aggregator.scan_all_items s,
        (Aggregator.parseDT ((Dict.find? it "pickup_datetime").getD "")).isSome = true) ∧
    (∀ it t, Aggregator.parseDT ((Dict.find? it "pickup_datetime").getD "") = some t →
      Aggregator.parseItem it
        = some (t.toKey, Aggregator.toNumeric ((Dict.find? it "fare_amount").getD ""))) := by
  constructor
  · constructor
    · intro hok it hit
      cases hdt : Aggregator.parseDT ((Dict.find? it "pickup_datetime").getD "") with
      | some t => rfl
      | none =>
        have hpi : Aggregator.parseItem it = none := by
          simp [Aggregator.parseItem, hdt]
        have herr := Aggregator.lambda_handler_err s hne
          (Aggregator.mapOpt_eq_none Aggregator.parseItem _ it hit hpi)
        rw [herr] at hok
        exact absurd hok (by decide)
    · intro hall
      have hsome : ∀ it ∈ Aggregator.scan_all_items s,
          (Aggregator.parseItem it).isSome = true := by
        intro it hit
        rw [Aggregator.parseItem_isSome]
        exact hall it hit
      obtain ⟨rows, hrows⟩ := Aggregator.mapOpt_isSome Aggregator.parseItem _ hsome
      rw [Aggregator.lambda_handler_ok s rows hne hrows]
      rfl
  · intro it t ht
    simp [Aggregator.parseItem, ht]

/-- Witness for C4: the invocation over a store whose matching item has
the unparseable fare "abc" succeeds (the fare is coerced to the missing
marker), while the invocation over a store whose matching item has the
unparseable pickup time "notadate" fails. -/
theorem aggregator_parse_failures_witness :
    Aggregator.scan_all_items storeBadFare ≠ [] ∧
    Aggregator.scan_all_items storeBadTime ≠ [] ∧
    Aggregator.toNumeric "abc" = none ∧
    ((Aggregator.lambda_handler storeBadFare).isOk = true ↔
      ∀ it ∈ Aggregator.scan_all_items storeBadFare,
        (Aggregator.parseDT ((Dict.find? it "pickup_datetime").getD "")).isSome = true) ∧
    (Aggregator.lambda_handler storeBadFare).isOk = true ∧
    (Aggregator.lambda_handler storeBadTime).isOk = false :=
  have h1 : Aggregator.scan_all_items storeBadFare ≠ [] := by decide
  have h2 : Aggregator.scan_all_items storeBadTime ≠ [] := by decide
  ⟨h1, h2, rfl,
   (aggregator_parse_failures storeBadFare h1).1,
   (aggregator_parse_failures storeBadFare h1).1.mpr (by decide),
   by
     have hiff := (aggregator_parse_failures storeBadTime h2).1
     cases hb : (Aggregator.lambda_handler storeBadTime).isOk with
     | false => rfl
     | true =>
       have hall := hiff.mp hb
       have hbad := hall [("id", "y"), ("pickup_datetime", "notadate"),
         ("fare_amount", "7.5"), ("estimated_fare_amount", "8")] (by decide)
       exact absurd hbad (by decide)⟩

/-! ### Claim C5 -/

theorem Aggregator.length_filterMap_of_isSome (g : List (Nat × Option ℚ))
    (h : ∀ r ∈ g, (r.2).isSome = true) :
    (g.filterMap (fun r => r.2)).length = g.length := by
  induction g with
  | nil => rfl
  | cons r g ih =>
    have hr := h r (List.mem_cons_self r g)
    cases hv : r.2 with
    | none => rw [hv] at hr; cases hr
    | some v =>
      simp only [List.filterMap_cons, hv, List.length_cons]
      rw [ih (fun x hx => h x (List.mem_cons_of_mem r hx))]

theorem Aggregator.kpiFor_pickup (rows : List (Nat × Option ℚ)) (k : Nat) :
    (Aggregator.kpiFor rows k).pickup_key = k := rfl

theorem Aggregator.rows_fare_isSome (s : Store) (rows : List (Nat × Option ℚ))
    (hrows : Aggregator.mapOpt Aggregator.parseItem (Aggregator.scan_all_items s)
      = some rows)
    (hfare : ∀ it ∈ Aggregator.scan_all_items s,
      (Aggregator.toNumeric ((Dict.find? it "fare_amount").getD "")).isSome = true) :
    ∀ r ∈ rows, (r.2).isSome = true := by
  intro r hr
  obtain ⟨it, hit, hparse⟩ :=
    Aggregator.mapOpt_mem Aggregator.parseItem _ rows hrows r hr
  rcases Option.map_eq_some'.mp (by simpa [Aggregator.parseItem] using hparse)
    with ⟨t, _, hrt⟩
  rw [← hrt]
  exact hfare it hit

/-- C5: for every non-empty set of matching records with parseable
fares and timestamps, the Aggregator partitions the records by exact
pickup_datetime value, not by calendar day: it emits exactly one write
per distinct parsed timestamp (the emitted timestamps are
duplicate-free and cover exactly the timestamps of the coerced rows,
and the number of writes is the number of distinct timestamps), each
write's path is kpis/date=YYYY-MM-DD/kpi.json with the date taken from
the group's timestamp, and each write's statistics are the sum, count,
mean, max and min of the fare_amount values of exactly the records
whose timestamp equals the group's. -/
theorem aggregator_grouping (s : Store) (rows : List (Nat × Option ℚ))
    (hne : Aggregator.scan_all_items s ≠ [])
    (hrows : Aggregator.mapOpt Aggregator.parseItem (Aggregator.scan_all_items s)
      = some rows)
    (hfare : ∀ it ∈ Aggregator.scan_all_items s,
      (Aggregator.toNumeric ((Dict.find? it "fare_amount").getD "")).isSome = true) :
    ∃ writes, Aggregator.lambda_handler s = Except.ok writes ∧
      List.Forall₂ (fun it r => Aggregator.parseItem it = some r)
        (Aggregator.scan_all_items s) rows ∧
      (writes.map (fun w => w.2.pickup_key)).Nodup ∧
      (∀ k, k ∈ writes.map (fun w => w.2.pickup_key) ↔ k ∈ rows.map (fun r => r.1)) ∧
      writes.length = (rows.map (fun r => r.1)).dedup.length ∧
      (∀ w ∈ writes,
        w.1 = "kpis/date=" ++ Aggregator.keyToDate w.2.pickup_key ++ "/kpi.json" ∧
        w.2.total_fare = (Aggregator.faresOf rows w.2.pickup_key).sum ∧
        w.2.count_trips = (rows.filter (fun r => r.1 == w.2.pickup_key)).length ∧
        w.2.count_trips ≠ 0 ∧
        w.2.average_fare = some (w.2.total_fare / (w.2.count_trips : ℚ)) ∧
        w.2.max_fare = (Aggregator.faresOf rows w.2.pickup_key).max? ∧
        w.2.min_fare = (Aggregator.faresOf rows w.2.pickup_key).min?) := by
  have hrfare := Aggregator.rows_fare_isSome s rows hrows hfare
  have hkeys : ((Aggregator.sortedKeys (rows.map (fun r => r.1))).map
      (fun k => (Aggregator.pathFor k, Aggregator.kpiFor rows k))).map
        (fun w => w.2.pickup_key)
      = Aggregator.sortedKeys (rows.map (fun r => r.1)) := by
    rw [List.map_map]
    have hc : ((fun w : String × Aggregator.KPI => w.2.pickup_key) ∘
        (fun k => (Aggregator.pathFor k, Aggregator.kpiFor rows k))) = id := by
      funext k
      rfl
    rw [hc, List.map_id]
  refine ⟨_, Aggregator.lambda_handler_ok s rows hne hrows,
    Aggregator.mapOpt_forall₂ Aggregator.parseItem _ rows hrows, ?_, ?_, ?_, ?_⟩
  · rw [hkeys]
    exact Aggregator.sortedKeys_nodup _
  · intro k
    rw [hkeys]
    exact Aggregator.mem_sortedKeys _ k
  · rw [List.length_map]
    exact Aggregator.sortedKeys_length_dedup _
  · intro w hw
    obtain ⟨k, hk, rfl⟩ := List.mem_map.mp hw
    have hgroup : ∀ r ∈ rows.filter (fun r => r.1 == k), (r.2).isSome = true :=
      fun r hr => hrfare r (List.mem_of_mem_filter hr)
    have hflen : (Aggregator.faresOf rows k).length
        = (rows.filter (fun r => r.1 == k)).length :=
      Aggregator.length_filterMap_of_isSome _ hgroup
    have hkmem : k ∈ rows.map (fun r => r.1) := (Aggregator.mem_sortedKeys _ k).mp hk
    have hne0 : (rows.filter (fun r => r.1 == k)).length ≠ 0 := by
      obtain ⟨r, hr, hrk⟩ := List.mem_map.mp hkmem
      have : r ∈ rows.filter (fun r => r.1 == k) :=
        List.mem_filter.mpr ⟨hr, by simp [hrk]⟩
      intro hzero
      rw [List.length_eq_zero] at hzero
      rw [hzero] at this
      cases this
    have hfne0 : (Aggregator.faresOf rows k).length ≠ 0 := by
      rw [hflen]
      exact hne0
    refine ⟨rfl, rfl, ?_, ?_, ?_, rfl, rfl⟩
    · exact hflen
    · show (Aggregator.faresOf rows k).length ≠ 0
      exact hfne0
    · show (if (Aggregator.faresOf rows k).length = 0 then none
        else some ((Aggregator.faresOf rows k).sum
          / ((Aggregator.faresOf rows k).length : ℚ))) = _
      rw [if_neg hfne0]
      rfl

theorem Aggregator.parseItem_tripA :
    Aggregator.parseItem tripA = some (20250422083000, some 20) := by
  have h1 : Aggregator.parseDT ((Dict.find? tripA "pickup_datetime").getD "")
      = some ⟨2025, 4, 22, 8, 30, 0⟩ := by decide
  have h2 : Aggregator.toNumeric ((Dict.find? tripA "fare_amount").getD "")
      = some 20 := by with_unfolding_all decide
  simp only [Aggregator.parseItem]
  rw [h1]
  simp only [Option.map_some']
  rw [h2]
  norm_num [Aggregator.Timestamp.toKey]

theorem Aggregator.parseItem_tripB :
    Aggregator.parseItem tripB = some (20250422090000, some 25) := by
  have h1 : Aggregator.parseDT ((Dict.find? tripB "pickup_datetime").getD "")
      = some ⟨2025, 4, 22, 9, 0, 0⟩ := by decide
  have h2 : Aggregator.toNumeric ((Dict.find? tripB "fare_amount").getD "")
      = some 25 := by with_unfolding_all decide
  simp only [Aggregator.parseItem]
  rw [h1]
  simp only [Option.map_some']
  rw [h2]
  norm_num [Aggregator.Timestamp.toKey]

theorem Aggregator.parseItem_tripC :
    Aggregator.parseItem tripC = some (20250422101500, some 15) := by
  have h1 : Aggregator.parseDT ((Dict.find? tripC "pickup_datetime").getD "")
      = some ⟨2025, 4, 22, 10, 15, 0⟩ := by decide
  have h2 : Aggregator.toNumeric ((Dict.find? tripC "fare_amount").getD "")
      = some 15 := by with_unfolding_all decide
  simp only [Aggregator.parseItem]
  rw [h1]
  simp only [Option.map_some']
  rw [h2]
  norm_num [Aggregator.Timestamp.toKey]

theorem Aggregator.scan_storeTest :
    Aggregator.scan_all_items storeTest = [tripA, tripB, tripC] := by decide

theorem Aggregator.mapOpt_storeTest :
    Aggregator.mapOpt Aggregator.parseItem (Aggregator.scan_all_items storeTest)
      = some rowsTest := by
  rw [Aggregator.scan_storeTest]
  simp only [Aggregator.mapOpt, Aggregator.parseItem_tripA, Aggregator.parseItem_tripB,
    Aggregator.parseItem_tripC]
  rfl

theorem Aggregator.faresTestA :
    Aggregator.faresOf rowsTest 20250422083000 = [20] := by
  with_unfolding_all decide

theorem Aggregator.faresTestB :
    Aggregator.faresOf rowsTest 20250422090000 = [25] := by
  with_unfolding_all decide

theorem Aggregator.faresTestC :
    Aggregator.faresOf rowsTest 20250422101500 = [15] := by
  with_unfolding_all decide

theorem Aggregator.handler_storeTest :
    Aggregator.lambda_handler storeTest = Except.ok
      [("kpis/date=2025-04-22/kpi.json",
        ⟨20250422083000, 20, 1, some 20, some 20, some 20⟩),
       ("kpis/date=2025-04-22/kpi.json",
        ⟨20250422090000, 25, 1, some 25, some 25, some 25⟩),
       ("kpis/date=2025-04-22/kpi.json",
        ⟨20250422101500, 15, 1, some 15, some 15, some 15⟩)] := by
  rw [Aggregator.lambda_handler_ok storeTest rowsTest (by decide)
    Aggregator.mapOpt_storeTest]
  rw [show Aggregator.sortedKeys (rowsTest.map (fun r => r.1))
      = [20250422083000, 20250422090000, 20250422101500] from by decide]
  simp only [List.map_cons, List.map_nil]
  rw [show Aggregator.pathFor 20250422083000 = "kpis/date=2025-04-22/kpi.json" from
    by decide]
  rw [show Aggregator.pathFor 20250422090000 = "kpis/date=2025-04-22/kpi.json" from
    by decide]
  rw [show Aggregator.pathFor 20250422101500 = "kpis/date=2025-04-22/kpi.json" from
    by decide]
  have k1 : Aggregator.kpiFor rowsTest 20250422083000
      = ⟨20250422083000, 20, 1, some 20, some 20, some 20⟩ := by
    simp only [Aggregator.kpiFor, Aggregator.faresTestA]
    norm_num
  have k2 : Aggregator.kpiFor rowsTest 20250422090000
      = ⟨20250422090000, 25, 1, some 25, some 25, some 25⟩ := by
    simp only [Aggregator.kpiFor, Aggregator.faresTestB]
    norm_num
  have k3 : Aggregator.kpiFor rowsTest 20250422101500
      = ⟨20250422101500, 15, 1, some 15, some 15, some 15⟩ := by
    simp only [Aggregator.kpiFor, Aggregator.faresTestC]
    norm_num
  rw [k1, k2, k3]

/-- Witness for C5 at the three mock trip records of
test_aggregation.py: three distinct timestamps on one calendar day
yield three groups, each with count one and total, average, max and
min all equal to that record's fare. -/
theorem aggregator_grouping_witness :
    (Aggregator.scan_all_items storeTest ≠ [] ∧
     Aggregator.mapOpt Aggregator.parseItem (Aggregator.scan_all_items storeTest)
       = some rowsTest ∧
     (∀ it ∈ Aggregator.scan_all_items storeTest,
       (Aggregator.toNumeric ((Dict.find? it "fare_amount").getD "")).isSome = true)) ∧
    Aggregator.lambda_handler storeTest = Except.ok
      [("kpis/date=2025-04-22/kpi.json",
        ⟨20250422083000, 20, 1, some 20, some 20, some 20⟩),
       ("kpis/date=2025-04-22/kpi.json",
        ⟨20250422090000, 25, 1, some 25, some 25, some 25⟩),
       ("kpis/date=2025-04-22/kpi.json",
        ⟨20250422101500, 15, 1, some 15, some 15, some 15⟩)] ∧
    (∃ writes, Aggregator.lambda_handler storeTest = Except.ok writes ∧
      List.Forall₂ (fun it r => Aggregator.parseItem it = some r)
        (Aggregator.scan_all_items storeTest) rowsTest ∧
      (writes.map (fun w => w.2.pickup_key)).Nodup ∧
      (∀ k, k ∈ writes.map (fun w => w.2.pickup_key) ↔
        k ∈ rowsTest.map (fun r => r.1)) ∧
      writes.length = (rowsTest.map (fun r => r.1)).dedup.length ∧
      (∀ w ∈ writes,
        w.1 = "kpis/date=" ++ Aggregator.keyToDate w.2.pickup_key ++ "/kpi.json" ∧
        w.2.total_fare = (Aggregator.faresOf rowsTest w.2.pickup_key).sum ∧
        w.2.count_trips
          = (rowsTest.filter (fun r => r.1 == w.2.pickup_key)).length ∧
        w.2.count_trips ≠ 0 ∧
        w.2.average_fare = some (w.2.total_fare / (w.2.count_trips : ℚ)) ∧
        w.2.max_fare = (Aggregator.faresOf rowsTest w.2.pickup_key).max? ∧
        w.2.min_fare = (Aggregator.faresOf rowsTest w.2.pickup_key).min?)) :=
  ⟨⟨by decide, Aggregator.mapOpt_storeTest, by with_unfolding_all decide⟩,
   Aggregator.handler_storeTest,
   aggregator_grouping storeTest rowsTest (by decide) Aggregator.mapOpt_storeTest
     (by with_unfolding_all decide)⟩

/-! ### Claim C10: calendar-day path collisions -/

theorem Aggregator.dVal_lt_ten (c : Char) (h : Aggregator.isDig c = true) :
    Aggregator.dVal c < 10 := by
  simp only [Aggregator.isDig, Bool.and_eq_true, decide_eq_true_eq] at h
  simp only [Aggregator.dVal]
  omega

theorem Aggregator.parseDT_toKey_lt (str : String) (t : Aggregator.Timestamp)
    (h : Aggregator.parseDT str = some t) :
    Aggregator.Timestamp.toKey t < 100000000000000 := by
  unfold Aggregator.parseDT at h
  split at h
  next y1 y2 y3 y4 c1 m1 m2 c2 d1 d2 c3 h1 h2 c4 n1 n2 c5 s1 s2 =>
    split at h
    next hc =>
      obtain ⟨_, _, _, _, _, hy1, hy2, hy3, hy4, hm1, hm2, hd1, hd2, hh1, hh2,
        hn1, hn2, hs1, hs2, hm12, hm12b, hd12, hd12b, hh12, hn12, hs12⟩ := hc
      cases h
      have b1 := Aggregator.dVal_lt_ten _ hy1
      have b2 := Aggregator.dVal_lt_ten _ hy2
      have b3 := Aggregator.dVal_lt_ten _ hy3
      have b4 := Aggregator.dVal_lt_ten _ hy4
      simp only [Aggregator.val2] at hm12 hm12b hd12 hd12b hh12 hn12 hs12
      simp only [Aggregator.Timestamp.toKey, Aggregator.val2]
      omega
    next => cases h
  next => cases h

theorem Aggregator.rows_key_lt (s : Store) (rows : List (Nat × Option ℚ))
    (hrows : Aggregator.mapOpt Aggregator.parseItem (Aggregator.scan_all_items s)
      = some rows) :
    ∀ k ∈ rows.map (fun r => r.1), k < 100000000000000 := by
  intro k hk
  obtain ⟨r, hr, hrk⟩ := List.mem_map.mp hk
  obtain ⟨it, _, hparse⟩ :=
    Aggregator.mapOpt_mem Aggregator.parseItem _ rows hrows r hr
  rcases Option.map_eq_some'.mp (by simpa [Aggregator.parseItem] using hparse)
    with ⟨t, ht, hrt⟩
  have hlt := Aggregator.parseDT_toKey_lt _ t ht
  rw [← hrk, ← hrt]
  exact hlt

theorem Aggregator.digitChar_inj (m n : Nat) (hm : m < 10) (hn : n < 10)
    (h : Aggregator.digitChar m = Aggregator.digitChar n) : m = n := by
  interval_cases m <;> interval_cases n <;> revert h <;> decide

theorem Aggregator.fmtDate_inj (y mo d y' mo' d' : Nat)
    (hy : y < 10000) (hy' : y' < 10000) (hmo : mo < 100) (hmo' : mo' < 100)
    (hd : d < 100) (hd' : d' < 100)
    (h : Aggregator.fmtDate y mo d = Aggregator.fmtDate y' mo' d') :
    y = y' ∧ mo = mo' ∧ d = d' := by
  simp only [Aggregator.fmtDate, List.cons.injEq, and_true, true_and] at h
  obtain ⟨e1, e2, e3, e4, e5, e6, e7, e8⟩ := h
  have g1 := Aggregator.digitChar_inj _ _ (Nat.mod_lt _ (by decide))
    (Nat.mod_lt _ (by decide)) e1
  have g2 := Aggregator.digitChar_inj _ _ (Nat.mod_lt _ (by decide))
    (Nat.mod_lt _ (by decide)) e2
  have g3 := Aggregator.digitChar_inj _ _ (Nat.mod_lt _ (by decide))
    (Nat.mod_lt _ (by decide)) e3
  have g4 := Aggregator.digitChar_inj _ _ (Nat.mod_lt _ (by decide))
    (Nat.mod_lt _ (by decide)) e4
  have g5 := Aggregator.digitChar_inj _ _ (Nat.mod_lt _ (by decide))
    (Nat.mod_lt _ (by decide)) e5
  have g6 := Aggregator.digitChar_inj _ _ (Nat.mod_lt _ (by decide))
    (Nat.mod_lt _ (by decide)) e6
  have g7 := Aggregator.digitChar_inj _ _ (Nat.mod_lt _ (by decide))
    (Nat.mod_lt _ (by decide)) e7
  have g8 := Aggregator.digitChar_inj _ _ (Nat.mod_lt _ (by decide))
    (Nat.mod_lt _ (by decide)) e8
  refine ⟨?_, ?_, ?_⟩ <;> omega

theorem Aggregator.pathFor_day (k k' : Nat) (hk : k < 100000000000000)
    (hk' : k' < 100000000000000) :
    (Aggregator.pathFor k = Aggregator.pathFor k') ↔
      Aggregator.dayKey k = Aggregator.dayKey k' := by
  constructor
  · intro h
    have hdata := congrArg String.data h
    simp only [Aggregator.pathFor, String.data_append] at hdata
    rw [List.append_assoc, List.append_assoc] at hdata
    have hmid := List.append_cancel_left hdata
    have hfd : Aggregator.fmtDate (Aggregator.dayKey k / 10000)
        (Aggregator.dayKey k / 100 % 100) (Aggregator.dayKey k % 100)
        = Aggregator.fmtDate (Aggregator.dayKey k' / 10000)
          (Aggregator.dayKey k' / 100 % 100) (Aggregator.dayKey k' % 100) :=
      List.append_cancel_right hmid
    have hy : Aggregator.dayKey k / 10000 < 10000 := by
      simp only [Aggregator.dayKey]
      omega
    have hy' : Aggregator.dayKey k' / 10000 < 10000 := by
      simp only [Aggregator.dayKey]
      omega
    obtain ⟨q1, q2, q3⟩ := Aggregator.fmtDate_inj _ _ _ _ _ _ hy hy'
      (Nat.mod_lt _ (by decide)) (Nat.mod_lt _ (by decide))
      (Nat.mod_lt _ (by decide)) (Nat.mod_lt _ (by decide)) hfd
    omega
  · intro h
    simp [Aggregator.pathFor, Aggregator.keyToDate, h]

theorem Aggregator.sorted_getLast_max (M : List Nat) (hM : M.Pairwise (· < ·)) :
    ∀ x ∈ M, ∃ m, M.getLast? = some m ∧ x ≤ m := by
  induction M with
  | nil => intro x hx; cases hx
  | cons a M ih =>
    intro x hx
    cases M with
    | nil =>
      rcases List.mem_cons.mp hx with rfl | hmem
      · exact ⟨x, rfl, Nat.le_refl x⟩
      · cases hmem
    | cons b M' =>
      have htail : (b :: M').Pairwise (· < ·) := hM.of_cons
      have hab : ∀ c ∈ b :: M', a < c := fun c hc => List.rel_of_pairwise_cons hM hc
      rcases List.mem_cons.mp hx with rfl | hmem
      · obtain ⟨m, hm, hbm⟩ := ih htail b (List.mem_cons_self b M')
        refine ⟨m, ?_, Nat.le_of_lt (Nat.lt_of_lt_of_le
          (hab b (List.mem_cons_self b M')) hbm)⟩
        rw [List.getLast?_cons_cons]
        exact hm
      · obtain ⟨m, hm, hxm⟩ := ih htail x hmem
        refine ⟨m, ?_, hxm⟩
        rw [List.getLast?_cons_cons]
        exact hm

theorem Aggregator.lastWrite?_map (g : Nat → String) (h : Nat → Aggregator.KPI)
    (p : String) (K : List Nat) :
    Aggregator.lastWrite? (K.map (fun k => (g k, h k))) p
      = ((K.filter (fun k => g k == p)).getLast?).map h := by
  induction K with
  | nil => rfl
  | cons a K ih =>
    simp only [List.map_cons, Aggregator.lastWrite?]
    rw [ih]
    by_cases hga : g a = p
    · rw [List.filter_cons_of_pos (by simp [hga])]
      cases hF : K.filter (fun k => g k == p) with
      | nil => simp [hga]
      | cons f F' =>
        rw [List.getLast?_cons_cons]
        cases hL : (f :: F').getLast? with
        | none =>
          rw [List.getLast?_eq_none_iff] at hL
          cases hL
        | some m => simp
    · rw [List.filter_cons_of_neg (by simp [hga])]
      cases hL : (K.filter (fun k => g k == p)).getLast? with
      | none => simp [hga]
      | some m => simp

theorem Aggregator.length_filter_lt {α : Type} (p : α → Bool) (l : List α)
    (x : α) (hx : x ∈ l) (hpx : p x = false) :
    (l.filter p).length < l.length := by
  induction l with
  | nil => cases hx
  | cons a l ih =>
    rcases List.mem_cons.mp hx with rfl | hmem
    · rw [List.filter_cons_of_neg (by simp [hpx])]
      have hle := List.length_filter_le p l
      simp only [List.length_cons]
      omega
    · by_cases hpa : p a = true
      · rw [List.filter_cons_of_pos hpa]
        simp only [List.length_cons]
        exact Nat.succ_lt_succ (ih hmem)
      · rw [List.filter_cons_of_neg (by simpa using hpa)]
        have hlt := ih hmem
        simp only [List.length_cons]
        omega

/-- C10: when the Aggregator's matching records contain two or more
distinct pickup_datetime values falling on the same calendar day, every
group of that day is written to the same object path, each later write
overwriting the earlier one, so the final object at that path holds the
statistics of only the group of the day's greatest timestamp, and its
trip count is strictly smaller than the number of that day's matching
records: no day-level aggregate is produced. -/
theorem aggregator_same_day_overwrite (s : Store) (rows : List (Nat × Option ℚ))
    (k1 k2 : Nat)
    (hne : Aggregator.scan_all_items s ≠ [])
    (hrows : Aggregator.mapOpt Aggregator.parseItem (Aggregator.scan_all_items s)
      = some rows)
    (hfare : ∀ it ∈ Aggregator.scan_all_items s,
      (Aggregator.toNumeric ((Dict.find? it "fare_amount").getD "")).isSome = true)
    (hk1 : k1 ∈ rows.map (fun r => r.1)) (hk2 : k2 ∈ rows.map (fun r => r.1))
    (hk12 : k1 ≠ k2) (hday : Aggregator.dayKey k1 = Aggregator.dayKey k2) :
    ∃ writes kmax, Aggregator.lambda_handler s = Except.ok writes ∧
      kmax ∈ rows.map (fun r => r.1) ∧
      Aggregator.dayKey kmax = Aggregator.dayKey k1 ∧
      (∀ k ∈ rows.map (fun r => r.1),
        Aggregator.dayKey k = Aggregator.dayKey k1 → k ≤ kmax) ∧
      (∀ w ∈ writes, Aggregator.dayKey w.2.pickup_key = Aggregator.dayKey k1 →
        w.1 = Aggregator.pathFor k1) ∧
      Aggregator.lastWrite? writes (Aggregator.pathFor k1)
        = some (Aggregator.kpiFor rows kmax) ∧
      (Aggregator.kpiFor rows kmax).count_trips
        < (rows.filter
            (fun r => Aggregator.dayKey r.1 == Aggregator.dayKey k1)).length := by
  have hbound := Aggregator.rows_key_lt s rows hrows
  have hrfare := Aggregator.rows_fare_isSome s rows hrows hfare
  have hKmem : ∀ k, k ∈ Aggregator.sortedKeys (rows.map (fun r => r.1)) ↔
      k ∈ rows.map (fun r => r.1) := fun k => Aggregator.mem_sortedKeys _ k
  have hKpair := Aggregator.sortedKeys_pairwise (rows.map (fun r => r.1))
  have hdayPair : ((Aggregator.sortedKeys (rows.map (fun r => r.1))).filter
      (fun k => Aggregator.dayKey k == Aggregator.dayKey k1)).Pairwise (· < ·) :=
    hKpair.filter _
  have hk1K : k1 ∈ Aggregator.sortedKeys (rows.map (fun r => r.1)) :=
    (hKmem k1).mpr hk1
  have hk1day : k1 ∈ (Aggregator.sortedKeys (rows.map (fun r => r.1))).filter
      (fun k => Aggregator.dayKey k == Aggregator.dayKey k1) :=
    List.mem_filter.mpr ⟨hk1K, by simp⟩
  obtain ⟨m, hmlast, hk1m⟩ := Aggregator.sorted_getLast_max _ hdayPair k1 hk1day
  have hmfilter := List.mem_filter.mp (List.mem_of_getLast?_eq_some hmlast)
  have hmrows : m ∈ rows.map (fun r => r.1) := (hKmem m).mp hmfilter.1
  have hmday : Aggregator.dayKey m = Aggregator.dayKey k1 := by
    have hb := hmfilter.2
    simpa using hb
  have hk1b : k1 < 100000000000000 := hbound k1 hk1
  refine ⟨_, m, Aggregator.lambda_handler_ok s rows hne hrows, hmrows, hmday,
    ?_, ?_, ?_, ?_⟩
  · intro k hkrows hkday
    have hkdayK : k ∈ (Aggregator.sortedKeys (rows.map (fun r => r.1))).filter
        (fun k => Aggregator.dayKey k == Aggregator.dayKey k1) :=
      List.mem_filter.mpr ⟨(hKmem k).mpr hkrows, by simp [hkday]⟩
    obtain ⟨m', hm'last, hkm'⟩ := Aggregator.sorted_getLast_max _ hdayPair k hkdayK
    rw [hmlast] at hm'last
    cases hm'last
    exact hkm'
  · intro w hw hwday
    obtain ⟨k, hkK, rfl⟩ := List.mem_map.mp hw
    have hkb : k < 100000000000000 := hbound k ((hKmem k).mp hkK)
    refine (Aggregator.pathFor_day k k1 hkb hk1b).mpr ?_
    simpa [Aggregator.kpiFor_pickup] using hwday
  · rw [Aggregator.lastWrite?_map Aggregator.pathFor (Aggregator.kpiFor rows)
      (Aggregator.pathFor k1) (Aggregator.sortedKeys (rows.map (fun r => r.1)))]
    have hfilter : (Aggregator.sortedKeys (rows.map (fun r => r.1))).filter
        (fun k => Aggregator.pathFor k == Aggregator.pathFor k1)
        = (Aggregator.sortedKeys (rows.map (fun r => r.1))).filter
            (fun k => Aggregator.dayKey k == Aggregator.dayKey k1) := by
      apply List.filter_congr
      intro k hkK
      have hkb : k < 100000000000000 := hbound k ((hKmem k).mp hkK)
      by_cases hpk : Aggregator.pathFor k = Aggregator.pathFor k1
      · simp [hpk, (Aggregator.pathFor_day k k1 hkb hk1b).mp hpk]
      · have hnday : ¬ Aggregator.dayKey k = Aggregator.dayKey k1 :=
          fun hcon => hpk ((Aggregator.pathFor_day k k1 hkb hk1b).mpr hcon)
        simp [hpk, hnday]
    rw [hfilter, hmlast]
    rfl
  · show ((rows.filter (fun r => r.1 == m)).filterMap (fun r => r.2)).length < _
    have hgroup : ∀ r ∈ rows.filter (fun r => r.1 == m), (r.2).isSome = true :=
      fun r hr => hrfare r (List.mem_of_mem_filter hr)
    rw [Aggregator.length_filterMap_of_isSome _ hgroup]
    have hsub : rows.filter (fun r => r.1 == m)
        = (rows.filter
            (fun r => Aggregator.dayKey r.1 == Aggregator.dayKey k1)).filter
              (fun r => r.1 == m) := by
      rw [List.filter_filter]
      apply List.filter_congr
      intro r hr
      by_cases hrm : r.1 = m
      · simp [hrm, hmday]
      · simp [hrm]
    rw [hsub]
    have hkey : ∃ kx, kx ∈ rows.map (fun r => r.1) ∧ kx ≠ m ∧
        Aggregator.dayKey kx = Aggregator.dayKey k1 := by
      by_cases hm1 : m = k1
      · refine ⟨k2, hk2, ?_, hday.symm⟩
        rw [hm1]
        exact fun hcon => hk12 hcon.symm
      · exact ⟨k1, hk1, fun hcon => hm1 hcon.symm, rfl⟩
    obtain ⟨kx, hkx, hkxm, hkxday⟩ := hkey
    obtain ⟨rx, hrx, hrxk⟩ := List.mem_map.mp hkx
    have hrxD : rx ∈ rows.filter
        (fun r => Aggregator.dayKey r.1 == Aggregator.dayKey k1) :=
      List.mem_filter.mpr ⟨hrx, by simp [hrxk, hkxday]⟩
    exact Aggregator.length_filter_lt _ _ rx hrxD (by simp [hrxk, hkxm])

set_option maxRecDepth 2000 in
/-- Witness for C10 at the three mock trip records: all three same-day
groups write to the one path kpis/date=2025-04-22/kpi.json, and the
final object there holds only the 10:15 group (count one of three
same-day trips), not a day aggregate. -/
theorem aggregator_same_day_overwrite_witness :
    (Aggregator.scan_all_items storeTest ≠ [] ∧
     Aggregator.mapOpt Aggregator.parseItem (Aggregator.scan_all_items storeTest)
       = some rowsTest ∧
     (∀ it ∈ Aggregator.scan_all_items storeTest,
       (Aggregator.toNumeric ((Dict.find? it "fare_amount").getD "")).isSome = true) ∧
     20250422083000 ∈ rowsTest.map (fun r => r.1) ∧
     20250422090000 ∈ rowsTest.map (fun r => r.1) ∧
     (20250422083000 : Nat) ≠ 20250422090000 ∧
     Aggregator.dayKey 20250422083000 = Aggregator.dayKey 20250422090000) ∧
    Aggregator.lastWrite?
      [("kpis/date=2025-04-22/kpi.json",
        ⟨20250422083000, 20, 1, some 20, some 20, some 20⟩),
       ("kpis/date=2025-04-22/kpi.json",
        ⟨20250422090000, 25, 1, some 25, some 25, some 25⟩),
       ("kpis/date=2025-04-22/kpi.json",
        ⟨20250422101500, 15, 1, some 15, some 15, some 15⟩)]
      "kpis/date=2025-04-22/kpi.json"
      = some ⟨20250422101500, 15, 1, some 15, some 15, some 15⟩ ∧
    (∃ writes kmax, Aggregator.lambda_handler storeTest = Except.ok writes ∧
      kmax ∈ rowsTest.map (fun r => r.1) ∧
      Aggregator.dayKey kmax = Aggregator.dayKey 20250422083000 ∧
      (∀ k ∈ rowsTest.map (fun r => r.1),
        Aggregator.dayKey k = Aggregator.dayKey 20250422083000 → k ≤ kmax) ∧
      (∀ w ∈ writes,
        Aggregator.dayKey w.2.pickup_key = Aggregator.dayKey 20250422083000 →
        w.1 = Aggregator.pathFor 20250422083000) ∧
      Aggregator.lastWrite? writes (Aggregator.pathFor 20250422083000)
        = some (Aggregator.kpiFor rowsTest kmax) ∧
      (Aggregator.kpiFor rowsTest kmax).count_trips
        < (rowsTest.filter (fun r =>
            Aggregator.dayKey r.1 == Aggregator.dayKey 20250422083000)).length) :=
  ⟨⟨by decide, Aggregator.mapOpt_storeTest, by with_unfolding_all decide,
    by with_unfolding_all decide, by with_unfolding_all decide, by decide, by decide⟩,
   by simp [Aggregator.lastWrite?],
   aggregator_same_day_overwrite storeTest rowsTest 20250422083000 20250422090000
     (by decide) Aggregator.mapOpt_storeTest (by with_unfolding_all decide)
     (by with_unfolding_all decide) (by with_unfolding_all decide)
     (by decide) (by decide)⟩
